import Mathlib

/-!
Shallow embedding of the Socket.IO chat server (`src/server.js`):
the in-memory message store, connection registry, typing tracker,
read-receipt tracker, and the broadcast fan-out of each handler.

JavaScript `Map`s are modelled as association lists with JS `Map`
semantics (`set` updates in place or appends, `delete` removes the
entry, insertion order preserved); JS `Set`s of strings as duplicate-free
lists in insertion order; message ids (`Date.now() + Math.random()`) as
rationals, with the current time and the random draw passed in as
explicit parameters.
-/

namespace Chat

/-- Attachment descriptor as produced by the upload endpoint
(`/api/upload` in `src/server.js`). -/
structure Attachment where
  filename : String
  originalName : String
  size : Nat
  mimetype : String
  url : String
deriving DecidableEq, Repr

/-- A chat message as built by the `send_message` handler. `id` is
`Date.now() + Math.random()` (a rational here); `timestamp` is the
creation time; `editedAt` is set by a successful edit. -/
structure Message where
  id : ℚ
  username : String
  content : String
  type : String
  attachment : Option Attachment
  timestamp : Nat
  edited : Bool
  editedAt : Option Nat
deriving DecidableEq, Repr

/-- The payload a client sends with `send_message`. -/
structure SendData where
  username : String
  content : String
  type : Option String
  attachment : Option Attachment
deriving DecidableEq, Repr

/-- The events the server emits (`io.emit` / `socket.emit` /
`socket.broadcast.emit` payloads in `src/server.js`). -/
inductive Event where
  | user_status_update (username status : String)
  | user_joined (username : String)
  | chat_history (msgs : List Message)
  | online_users (entries : List (String × String))
  | new_message (m : Message)
  | user_typing (username : String)
  | user_stopped_typing (username : String)
  | message_edited (messageId : ℚ) (newContent : String) (editedAt : Nat)
  | message_deleted (messageId : ℚ)
  | message_read (messageId : ℚ) (readBy : String)
  | user_left (username : String)
deriving DecidableEq, Repr

/-- Who an emission is addressed to: `io.emit` reaches every connection
(`all`), `socket.broadcast.emit` every connection but the acting one
(`exceptSender`), `socket.emit` only the acting one (`senderOnly`). -/
inductive Target where
  | all
  | exceptSender
  | senderOnly
deriving DecidableEq, Repr

/-- One emission: a target audience and an event. -/
abbrev Emission := Target × Event

/-- Whether a given connection receives an emission with the given
target, `isSender` saying whether that connection is the acting one. -/
def receives (isSender : Bool) : Target → Bool
  | .all => true
  | .exceptSender => !isSender
  | .senderOnly => isSender

/-- JS `Map.prototype.get` on an association list. -/
def mapGet {α β : Type} [DecidableEq α] : List (α × β) → α → Option β
  | [], _ => none
  | (k, v) :: rest, key => if k = key then some v else mapGet rest key

/-- JS `Map.prototype.has`. -/
def mapHas {α β : Type} [DecidableEq α] (m : List (α × β)) (key : α) : Bool :=
  (mapGet m key).isSome

/-- JS `Map.prototype.set`: update in place when the key exists,
append a fresh entry otherwise. -/
def mapSet {α β : Type} [DecidableEq α] : List (α × β) → α → β → List (α × β)
  | [], key, val => [(key, val)]
  | (k, v) :: rest, key, val =>
      if k = key then (k, val) :: rest else (k, v) :: mapSet rest key val

/-- JS `Map.prototype.delete`. -/
def mapDelete {α β : Type} [DecidableEq α] : List (α × β) → α → List (α × β)
  | [], _ => []
  | (k, v) :: rest, key => if k = key then rest else (k, v) :: mapDelete rest key

/-- JS `Set.prototype.add` on a duplicate-free list kept in insertion
order. -/
def jsSetAdd (s : List String) (u : String) : List String :=
  if u ∈ s then s else s ++ [u]

/-- The server's mutable in-memory state (`src/server.js` lines 62-66):
`messages`, `connectedUsers` (socket id → username), `userStatus`
(username → "online"/"offline"), `typingUsers` (username → last typed
at), `readReceipts` (message id → set of usernames). -/
@[ext]
structure ServerState where
  messages : List Message
  connectedUsers : List (String × String)
  userStatus : List (String × String)
  typingUsers : List (String × Nat)
  readReceipts : List (ℚ × List String)
deriving DecidableEq, Repr

/-- The state at server start: everything empty. -/
def initialState : ServerState :=
  { messages := [], connectedUsers := [], userStatus := [],
    typingUsers := [], readReceipts := [] }

/-- The `join` handler: register the connection, set the user online,
emit `user_status_update` to all, `user_joined` to all but the joiner,
and send the joiner alone the chat history and the online roster. -/
def joinHandler (socketId username : String) (st : ServerState) :
    ServerState × List Emission :=
  let st' := { st with
    connectedUsers := mapSet st.connectedUsers socketId username,
    userStatus := mapSet st.userStatus username "online" }
  let onlineUsers := st'.userStatus.filter (fun p => p.2 = "online")
  (st',
   [(.all, .user_status_update username "online"),
    (.exceptSender, .user_joined username),
    (.senderOnly, .chat_history st'.messages),
    (.senderOnly, .online_users onlineUsers)])

/-- The message record the `send_message` handler builds, with the
current time and the random draw passed in (`Date.now()`,
`Math.random()`); `data.type || 'text'` defaults a missing or empty
type to "text", `data.attachment || null` keeps the attachment. -/
def mkMessage (data : SendData) (now : Nat) (rand : ℚ) : Message :=
  { id := (now : ℚ) + rand,
    username := data.username,
    content := data.content,
    type := match data.type with
            | none => "text"
            | some t => if t = "" then "text" else t,
    attachment := data.attachment,
    timestamp := now,
    edited := false,
    editedAt := none }

/-- The `send_message` handler: append the message, trim to the last
100 (`messages.slice(-100)`), clear the sender's typing entry, emit
`user_stopped_typing` and `new_message` to all. -/
def sendMessage (data : SendData) (now : Nat) (rand : ℚ) (st : ServerState) :
    ServerState × List Emission :=
  let message := mkMessage data now rand
  let pushed := st.messages ++ [message]
  let trimmed := if pushed.length > 100 then pushed.drop (pushed.length - 100) else pushed
  ({ st with
      messages := trimmed,
      typingUsers := mapDelete st.typingUsers data.username },
   [(.all, .user_stopped_typing data.username),
    (.all, .new_message message)])

/-- A sequence of `send_message` calls, each with its payload, time and
random draw, applied in order. -/
def applySends (sends : List (SendData × Nat × ℚ)) (st : ServerState) : ServerState :=
  sends.foldl (fun s t => (sendMessage t.1 t.2.1 t.2.2 s).1) st

/-- The `edit_message` handler's effect on the message list:
`findIndex` on the id, then mutate content / `edited` / `editedAt` only
when the found message's author is the requester. Returns the new list
and whether the edit happened. -/
def editMessageList (messageId : ℚ) (username newContent : String) (now : Nat)
    (l : List Message) : List Message × Bool :=
  match l.findIdx? (fun m => decide (m.id = messageId)) with
  | some i =>
    match l[i]? with
    | some msg =>
      if msg.username = username then
        (l.set i { msg with content := newContent, edited := true, editedAt := some now },
         true)
      else (l, false)
    | none => (l, false)
  | none => (l, false)

/-- The `edit_message` handler: on success emit `message_edited` to all. -/
def editMessage (messageId : ℚ) (username newContent : String) (now : Nat)
    (st : ServerState) : ServerState × List Emission :=
  let r := editMessageList messageId username newContent now st.messages
  if r.2 then
    ({ st with messages := r.1 }, [(.all, .message_edited messageId newContent now)])
  else
    ({ st with messages := r.1 }, [])

/-- The `delete_message` handler's effect on the message list:
`findIndex` on the id, then `splice` the entry out only when the found
message's author is the requester. Returns the new list and whether the
delete happened. -/
def deleteMessageList (messageId : ℚ) (username : String) (l : List Message) :
    List Message × Bool :=
  match l.findIdx? (fun m => decide (m.id = messageId)) with
  | some i =>
    match l[i]? with
    | some msg =>
      if msg.username = username then (l.eraseIdx i, true) else (l, false)
    | none => (l, false)
  | none => (l, false)

/-- The `delete_message` handler: on success emit `message_deleted` to all. -/
def deleteMessage (messageId : ℚ) (username : String) (st : ServerState) :
    ServerState × List Emission :=
  let r := deleteMessageList messageId username st.messages
  if r.2 then
    ({ st with messages := r.1 }, [(.all, .message_deleted messageId)])
  else
    ({ st with messages := r.1 }, [])

/-- The `typing` handler: record now() for the user, tell everyone else. -/
def typingHandler (username : String) (now : Nat) (st : ServerState) :
    ServerState × List Emission :=
  ({ st with typingUsers := mapSet st.typingUsers username now },
   [(.exceptSender, .user_typing username)])

/-- The `stop_typing` handler. -/
def stopTypingHandler (username : String) (st : ServerState) :
    ServerState × List Emission :=
  ({ st with typingUsers := mapDelete st.typingUsers username },
   [(.exceptSender, .user_stopped_typing username)])

/-- The `mark_as_read` handler: ensure a receipt set exists for the id,
add the reader, emit `message_read` to all. The message store is never
consulted. -/
def markAsRead (messageId : ℚ) (username : String) (st : ServerState) :
    ServerState × List Emission :=
  let cur := (mapGet st.readReceipts messageId).getD []
  ({ st with readReceipts := mapSet st.readReceipts messageId (jsSetAdd cur username) },
   [(.all, .message_read messageId username)])

/-- The typing-expiry sweep (`setInterval` body): delete every entry
older than 3000 ms (`now - timestamp > 3000`, strict) and emit
`user_stopped_typing` for each deleted user. -/
def sweepTyping (now : Nat) (st : ServerState) : ServerState × List Emission :=
  let expired := st.typingUsers.filter (fun p => decide (p.2 + 3000 < now))
  ({ st with typingUsers := st.typingUsers.filter (fun p => !decide (p.2 + 3000 < now)) },
   expired.map (fun p => (.all, .user_stopped_typing p.1)))

/-- `s.includes(q)` on lowered strings is modelled on character lists:
some tail of `s` starts with `q`. -/
def strContains (s q : String) : Bool :=
  s.toList.tails.any (fun t => q.toList.isPrefixOf t)

/-- The `/api/search` endpoint: a falsy (empty) query returns `[]`;
otherwise filter on a case-insensitive substring match against content
or username, preserving store order. -/
def searchMessages (query : String) (ms : List Message) : List Message :=
  if query = "" then []
  else ms.filter (fun m =>
    strContains m.content.toLower query.toLower ||
    strContains m.username.toLower query.toLower)

/-- A concrete message by `lev`, used to evaluate the handlers. -/
def exMsg : Message :=
  { id := 5, username := "lev", content := "hi", type := "text",
    attachment := none, timestamp := 0, edited := false, editedAt := none }

/-- A concrete state: one message by `lev`, one read receipt for it. -/
def exState : ServerState :=
  { initialState with messages := [exMsg], readReceipts := [(5, ["cin"])] }

/-- A concrete `send_message` payload from `lev`. -/
def exData : SendData :=
  { username := "lev", content := "hi", type := none, attachment := none }

/-- A second concrete payload with different content. -/
def exData2 : SendData :=
  { username := "lev", content := "second", type := none, attachment := none }

/-- A concrete state with one typing entry for `lev` set at time 0. -/
def exTypingState : ServerState :=
  { initialState with typingUsers := [("lev", 0)] }

end Chat

namespace Chat

/-! ### Association-list (JS `Map`) lemmas -/

theorem mapGet_nil {α β : Type} [DecidableEq α] (k : α) :
    mapGet ([] : List (α × β)) k = none := rfl

theorem mapGet_cons {α β : Type} [DecidableEq α] (ka : α) (va : β) (rest : List (α × β)) (k : α) :
    mapGet ((ka, va) :: rest) k = if ka = k then some va else mapGet rest k := rfl

theorem mapSet_nil {α β : Type} [DecidableEq α] (k : α) (v : β) :
    mapSet ([] : List (α × β)) k v = [(k, v)] := rfl

theorem mapSet_cons {α β : Type} [DecidableEq α] (ka : α) (va : β) (rest : List (α × β))
    (k : α) (v : β) :
    mapSet ((ka, va) :: rest) k v =
      if ka = k then (ka, v) :: rest else (ka, va) :: mapSet rest k v := rfl

theorem mapGet_mapSet_self {α β : Type} [DecidableEq α] (m : List (α × β)) (k : α) (v : β) :
    mapGet (mapSet m k v) k = some v := by
  induction m with
  | nil => simp [mapSet_nil, mapGet_cons]
  | cons a rest ih =>
    obtain ⟨ka, va⟩ := a
    by_cases h : ka = k
    · rw [mapSet_cons, if_pos h, mapGet_cons, if_pos h]
    · rw [mapSet_cons, if_neg h, mapGet_cons, if_neg h]
      exact ih

theorem mapGet_mapSet_ne {α β : Type} [DecidableEq α] (m : List (α × β)) (k k' : α) (v : β)
    (h : k' ≠ k) : mapGet (mapSet m k v) k' = mapGet m k' := by
  induction m with
  | nil => rw [mapSet_nil, mapGet_cons, if_neg (fun he => h he.symm), mapGet_nil]
  | cons a rest ih =>
    obtain ⟨ka, va⟩ := a
    by_cases hka : ka = k
    · subst hka
      rw [mapSet_cons, if_pos rfl, mapGet_cons, mapGet_cons,
        if_neg (fun he => h he.symm), if_neg (fun he => h he.symm)]
    · rw [mapSet_cons, if_neg hka, mapGet_cons, mapGet_cons, ih]

theorem mapSet_mapSet_self {α β : Type} [DecidableEq α] (m : List (α × β)) (k : α) (v w : β) :
    mapSet (mapSet m k v) k w = mapSet m k w := by
  induction m with
  | nil => rw [mapSet_nil, mapSet_cons, if_pos rfl, mapSet_nil]
  | cons a rest ih =>
    obtain ⟨ka, va⟩ := a
    by_cases h : ka = k
    · rw [mapSet_cons, if_pos h, mapSet_cons, if_pos h, mapSet_cons, if_pos h]
    · rw [mapSet_cons, if_neg h, mapSet_cons, if_neg h, mapSet_cons, if_neg h, ih]

theorem mapGet_eq_none_of_not_mem_keys {α β : Type} [DecidableEq α] (m : List (α × β)) (k : α)
    (h : k ∉ m.map Prod.fst) : mapGet m k = none := by
  induction m with
  | nil => rfl
  | cons a rest ih =>
    obtain ⟨ka, va⟩ := a
    simp only [List.map_cons, List.mem_cons] at h
    push_neg at h
    rw [mapGet_cons, if_neg (fun he => h.1 he.symm)]
    exact ih h.2

theorem mem_of_mapGet_eq_some {α β : Type} [DecidableEq α] {m : List (α × β)} {k : α} {v : β}
    (h : mapGet m k = some v) : (k, v) ∈ m := by
  induction m with
  | nil => simp [mapGet_nil] at h
  | cons a rest ih =>
    obtain ⟨ka, va⟩ := a
    by_cases hka : ka = k
    · subst hka
      rw [mapGet_cons, if_pos rfl, Option.some.injEq] at h
      subst h
      exact List.mem_cons_self _ _
    · rw [mapGet_cons, if_neg hka] at h
      exact List.mem_cons_of_mem _ (ih h)

theorem mapGet_filter {α β : Type} [DecidableEq α] {m : List (α × β)} {k : α} {v : β}
    (p : α × β → Bool) (hkeys : (m.map Prod.fst).Nodup) (h : mapGet m k = some v) :
    mapGet (m.filter p) k = if p (k, v) then some v else none := by
  induction m with
  | nil => simp [mapGet_nil] at h
  | cons a rest ih =>
    obtain ⟨ka, va⟩ := a
    simp only [List.map_cons, List.nodup_cons] at hkeys
    by_cases hka : ka = k
    · subst hka
      rw [mapGet_cons, if_pos rfl, Option.some.injEq] at h
      subst h
      rcases hp : p (ka, va) with _ | _
      · rw [List.filter_cons, hp]
        simp only [Bool.false_eq_true, if_false]
        refine mapGet_eq_none_of_not_mem_keys _ _ (fun hmem => hkeys.1 ?_)
        exact List.map_subset _ (List.filter_sublist _).subset hmem
      · rw [List.filter_cons, hp]
        simp [mapGet_cons]
    · rw [mapGet_cons, if_neg hka] at h
      rcases hp : p (ka, va) with _ | _
      · rw [List.filter_cons, if_neg (by simp [hp])]
        exact ih hkeys.2 h
      · rw [List.filter_cons, if_pos hp, mapGet_cons, if_neg hka]
        exact ih hkeys.2 h

theorem mem_jsSetAdd_self (s : List String) (u : String) : u ∈ jsSetAdd s u := by
  by_cases h : u ∈ s <;> simp [jsSetAdd, h]

/-! ### `findIdx?` support -/

theorem findIdx?_spec {α : Type} (p : α → Bool) :
    ∀ (l : List α) (i : Nat), l.findIdx? p = some i → ∃ x, l[i]? = some x ∧ p x = true := by
  intro l
  induction l with
  | nil => intro i h; simp [List.findIdx?] at h
  | cons a rest ih =>
    intro i h
    rw [List.findIdx?_cons, List.findIdx?_succ] at h
    by_cases hp : p a
    · rw [if_pos hp] at h
      obtain rfl : (0 : Nat) = i := by simpa using h
      exact ⟨a, by simp, hp⟩
    · rw [if_neg hp, Option.map_eq_some'] at h
      obtain ⟨j, hj, rfl⟩ := h
      obtain ⟨x, hx, hpx⟩ := ih j hj
      exact ⟨x, by simpa using hx, hpx⟩


/-! ### Edit and delete on the message list -/

theorem editMessageList_of_no_match (messageId : ℚ) (username newContent : String) (now : Nat)
    (l : List Message) (h : ∀ m ∈ l, ¬(m.id = messageId ∧ m.username = username)) :
    editMessageList messageId username newContent now l = (l, false) := by
  rcases hf : l.findIdx? (fun m => decide (m.id = messageId)) with _ | i
  · simp [editMessageList, hf]
  · obtain ⟨msg, hmsg, hpmsg⟩ := findIdx?_spec _ l i hf
    have hmem : msg ∈ l := by
      obtain ⟨hlt, he⟩ := List.getElem?_eq_some.mp hmsg
      exact he ▸ List.getElem_mem hlt
    have hid : msg.id = messageId := by simpa using hpmsg
    have huser : ¬ msg.username = username := fun hu => h msg hmem ⟨hid, hu⟩
    simp [editMessageList, hf, hmsg, huser]

theorem deleteMessageList_of_no_match (messageId : ℚ) (username : String)
    (l : List Message) (h : ∀ m ∈ l, ¬(m.id = messageId ∧ m.username = username)) :
    deleteMessageList messageId username l = (l, false) := by
  rcases hf : l.findIdx? (fun m => decide (m.id = messageId)) with _ | i
  · simp [deleteMessageList, hf]
  · obtain ⟨msg, hmsg, hpmsg⟩ := findIdx?_spec _ l i hf
    have hmem : msg ∈ l := by
      obtain ⟨hlt, he⟩ := List.getElem?_eq_some.mp hmsg
      exact he ▸ List.getElem_mem hlt
    have hid : msg.id = messageId := by simpa using hpmsg
    have huser : ¬ msg.username = username := fun hu => h msg hmem ⟨hid, hu⟩
    simp [deleteMessageList, hf, hmsg, huser]

theorem eraseIdx_findIdx?_eq_filter {messageId : ℚ} :
    ∀ (l : List Message), (l.map Message.id).Nodup →
    ∀ i, l.findIdx? (fun m => decide (m.id = messageId)) = some i →
    l.eraseIdx i = l.filter (fun m => decide (¬ m.id = messageId)) := by
  intro l
  induction l with
  | nil => intro _ i h; simp [List.findIdx?] at h
  | cons a rest ih =>
    intro hnd i h
    simp only [List.map_cons, List.nodup_cons] at hnd
    rw [List.findIdx?_cons, List.findIdx?_succ] at h
    by_cases hp : a.id = messageId
    · rw [if_pos (by simpa using hp)] at h
      obtain rfl : (0 : Nat) = i := by simpa using h
      rw [List.eraseIdx_cons_zero, List.filter_cons, if_neg (by simp [hp])]
      symm
      rw [List.filter_eq_self]
      intro m hm
      have : m.id ≠ messageId := by
        intro he
        exact hnd.1 (hp ▸ he ▸ List.mem_map_of_mem Message.id hm)
      simpa using this
    · rw [if_neg (by simpa using hp), Option.map_eq_some'] at h
      obtain ⟨j, hj, rfl⟩ := h
      rw [List.eraseIdx_cons_succ, List.filter_cons, if_pos (by simpa using hp),
        ih hnd.2 j hj]

theorem deleteMessageList_of_match (messageId : ℚ) (username : String)
    (l : List Message) (hnd : (l.map Message.id).Nodup)
    (hex : ∃ m ∈ l, m.id = messageId ∧ m.username = username) :
    deleteMessageList messageId username l =
      (l.filter (fun m => decide (¬ m.id = messageId)), true) := by
  obtain ⟨m₀, hm₀, hid₀, huser₀⟩ := hex
  rcases hf : l.findIdx? (fun m => decide (m.id = messageId)) with _ | i
  · rw [List.findIdx?_eq_none_iff] at hf
    have := hf m₀ hm₀
    simp [hid₀] at this
  · obtain ⟨msg, hmsg, hpmsg⟩ := findIdx?_spec _ l i hf
    have hmem : msg ∈ l := by
      obtain ⟨hlt, he⟩ := List.getElem?_eq_some.mp hmsg
      exact he ▸ List.getElem_mem hlt
    have hid : msg.id = messageId := by simpa using hpmsg
    have hmm : msg = m₀ :=
      List.inj_on_of_nodup_map hnd hmem hm₀ (by rw [hid, hid₀])
    have huser : msg.username = username := hmm ▸ huser₀
    have hstep : deleteMessageList messageId username l = (l.eraseIdx i, true) := by
      simp [deleteMessageList, hf, hmsg, huser]
    rw [hstep, eraseIdx_findIdx?_eq_filter l hnd i hf]


/-! ### Search support -/

theorem strContains_iff (s q : String) :
    strContains s q = true ↔ q.toList <:+: s.toList := by
  rw [strContains, List.any_eq_true]
  constructor
  · rintro ⟨t, ht, hpre⟩
    rw [List.mem_tails] at ht
    rw [ List.isPrefixOf_iff_prefix] at hpre
    exact List.infix_iff_prefix_suffix.mpr ⟨t, hpre, ht⟩
  · intro h
    obtain ⟨t, hpre, hsuf⟩ := List.infix_iff_prefix_suffix.mp h
    exact ⟨t, (List.mem_tails _ _).mpr hsuf, ( List.isPrefixOf_iff_prefix).mpr hpre⟩

/-! ### `send_message` support -/

theorem sendMessage_messages (data : SendData) (now : Nat) (rand : ℚ) (st : ServerState) :
    (sendMessage data now rand st).1.messages =
      (st.messages ++ [mkMessage data now rand]).drop (st.messages.length + 1 - 100) := by
  by_cases h : (st.messages ++ [mkMessage data now rand]).length > 100
  · have hlen : (st.messages ++ [mkMessage data now rand]).length = st.messages.length + 1 := by
      simp
    simp only [sendMessage, if_pos h, hlen]
    rw [if_pos (by omega : st.messages.length + 1 > 100)]
  · have hle : st.messages.length + 1 ≤ 100 := by
      have : (st.messages ++ [mkMessage data now rand]).length ≤ 100 := not_lt.mp h
      simpa using this
    rw [Nat.sub_eq_zero_of_le hle]
    simp only [sendMessage, if_neg h, List.drop_zero]

theorem sendMessage_length_le (data : SendData) (now : Nat) (rand : ℚ) (st : ServerState) :
    (sendMessage data now rand st).1.messages.length ≤ 100 := by
  rw [sendMessage_messages, List.length_drop]
  simp
  omega

theorem applySends_length_le (sends : List (SendData × Nat × ℚ)) (st : ServerState)
    (h : st.messages.length ≤ 100) : (applySends sends st).messages.length ≤ 100 := by
  induction sends generalizing st with
  | nil => simpa [applySends] using h
  | cons s rest ih =>
    have : applySends (s :: rest) st = applySends rest (sendMessage s.1 s.2.1 s.2.2 st).1 := rfl
    rw [this]
    exact ih _ (sendMessage_length_le s.1 s.2.1 s.2.2 st)

/-! ### State-level edit and delete reductions -/

theorem editMessage_of_no_match (messageId : ℚ) (username newContent : String) (now : Nat)
    (st : ServerState) (h : ∀ m ∈ st.messages, ¬(m.id = messageId ∧ m.username = username)) :
    editMessage messageId username newContent now st = (st, []) := by
  have hl := editMessageList_of_no_match messageId username newContent now st.messages h
  simp [editMessage, hl]

theorem deleteMessage_of_no_match (messageId : ℚ) (username : String)
    (st : ServerState) (h : ∀ m ∈ st.messages, ¬(m.id = messageId ∧ m.username = username)) :
    deleteMessage messageId username st = (st, []) := by
  have hl := deleteMessageList_of_no_match messageId username st.messages h
  simp [deleteMessage, hl]

theorem deleteMessage_of_match (messageId : ℚ) (username : String) (st : ServerState)
    (hnd : (st.messages.map Message.id).Nodup)
    (hex : ∃ m ∈ st.messages, m.id = messageId ∧ m.username = username) :
    deleteMessage messageId username st =
      ({ st with messages := st.messages.filter (fun m => decide (¬ m.id = messageId)) },
       [(Target.all, Event.message_deleted messageId)]) := by
  have hl := deleteMessageList_of_match messageId username st.messages hnd hex
  simp [deleteMessage, hl]

theorem deleteMessage_readReceipts (messageId : ℚ) (username : String) (st : ServerState) :
    (deleteMessage messageId username st).1.readReceipts = st.readReceipts := by
  rcases h : deleteMessageList messageId username st.messages with ⟨l, deleted⟩
  cases deleted <;> simp [deleteMessage, h]


theorem jsSetAdd_of_mem {s : List String} {u : String} (h : u ∈ s) : jsSetAdd s u = s := by
  simp [jsSetAdd, h]

theorem length_filter_not_id {messageId : ℚ} :
    ∀ (l : List Message), (l.map Message.id).Nodup →
    (∃ m ∈ l, m.id = messageId) →
    (l.filter (fun m => decide (¬ m.id = messageId))).length + 1 = l.length := by
  intro l
  induction l with
  | nil => rintro _ ⟨m, hm, _⟩; simp at hm
  | cons a rest ih =>
    rintro hnd ⟨m, hm, hid⟩
    simp only [List.map_cons, List.nodup_cons] at hnd
    by_cases ha : a.id = messageId
    · rw [List.filter_cons, if_neg (by simp [ha])]
      have hrest : rest.filter (fun m => decide (¬ m.id = messageId)) = rest := by
        rw [List.filter_eq_self]
        intro x hx
        have : x.id ≠ messageId := fun he =>
          hnd.1 (ha ▸ he ▸ List.mem_map_of_mem Message.id hx)
        simpa using this
      rw [hrest]
      simp
    · have hm' : m ∈ rest := by
        rcases List.mem_cons.mp hm with rfl | h
        · exact absurd hid ha
        · exact h
      rw [List.filter_cons, if_pos (by simpa using ha), List.length_cons,
        List.length_cons, ih hnd.2 ⟨m, hm', hid⟩]

/-- C1: for every sequence of `send_message` calls from any store state,
the store never holds more than 100 messages; a single append keeps
exactly the last 100 of the extended list, evicting only from the front
and preserving the survivors' relative order (FIFO eviction). -/
theorem C1_store_bounded_fifo (st : ServerState) (data : SendData) (now : Nat) (rand : ℚ)
    (sends : List (SendData × Nat × ℚ)) (st₀ : ServerState) (hne : sends ≠ []) :
    (sendMessage data now rand st).1.messages =
      (st.messages ++ [mkMessage data now rand]).drop (st.messages.length + 1 - 100) ∧
    (sendMessage data now rand st).1.messages.length ≤ 100 ∧
    (applySends sends st₀).messages.length ≤ 100 := by
  refine ⟨sendMessage_messages data now rand st, sendMessage_length_le data now rand st, ?_⟩
  obtain ⟨p, rest, rfl⟩ := List.exists_cons_of_ne_nil hne
  have hstep : applySends (p :: rest) st₀ = applySends rest (sendMessage p.1 p.2.1 p.2.2 st₀).1 :=
    rfl
  rw [hstep]
  exact applySends_length_le rest _ (sendMessage_length_le p.1 p.2.1 p.2.2 st₀)

/-- Witness for C1 at a concrete input: one send from the empty state. -/
theorem C1_store_bounded_fifo_witness :
    (sendMessage exData 0 0 initialState).1.messages =
      (initialState.messages ++ [mkMessage exData 0 0]).drop
        (initialState.messages.length + 1 - 100) ∧
    (sendMessage exData 0 0 initialState).1.messages.length ≤ 100 ∧
    (applySends [(exData, 0, 0)] initialState).messages.length ≤ 100 :=
  C1_store_bounded_fifo initialState exData 0 0 [(exData, 0, 0)] initialState (by simp)

/-- C2: `edit_message` mutates the server state only when some stored
message carries the requested id and is authored by the requester; when
no such message exists (id absent, or every id match has a different
author) the state is unchanged. -/
theorem C2_edit_only_author (st : ServerState) (messageId : ℚ) (requester newContent : String)
    (now : Nat) :
    ((editMessage messageId requester newContent now st).1 ≠ st →
      ∃ m ∈ st.messages, m.id = messageId ∧ m.username = requester) ∧
    ((¬ ∃ m ∈ st.messages, m.id = messageId ∧ m.username = requester) →
      (editMessage messageId requester newContent now st).1 = st) := by
  have key : (¬ ∃ m ∈ st.messages, m.id = messageId ∧ m.username = requester) →
      (editMessage messageId requester newContent now st).1 = st := by
    intro hno
    push_neg at hno
    have h := editMessage_of_no_match messageId requester newContent now st
      (fun m hm hand => hno m hm hand.1 hand.2)
    rw [h]
  refine ⟨fun hne => ?_, key⟩
  by_contra hno
  exact hne (key hno)

/-- Witness for C2 at a concrete input: `cin` editing `lev`'s message is
a no-op. -/
theorem C2_edit_only_author_witness :
    (editMessage 5 "cin" "new" 7 exState).1 = exState :=
  (C2_edit_only_author exState 5 "cin" "new" 7).2
    (by
      rintro ⟨m, hm, hid, huser⟩
      simp [exState, initialState, exMsg] at hm
      rw [hm] at huser
      simp [exMsg] at huser)

/-- C3: `delete_message` removes exactly the one entry matching the id
when the requester is its author (and emits one delete event); in every
other case the state is unchanged and nothing is emitted. -/
theorem C3_delete_exactly_one (st : ServerState) (messageId : ℚ) (requester : String)
    (hnd : (st.messages.map Message.id).Nodup) :
    ((∃ m ∈ st.messages, m.id = messageId ∧ m.username = requester) →
      (deleteMessage messageId requester st).1.messages =
        st.messages.filter (fun m => decide (¬ m.id = messageId)) ∧
      (deleteMessage messageId requester st).1.messages.length + 1 = st.messages.length ∧
      (deleteMessage messageId requester st).2 =
        [(Target.all, Event.message_deleted messageId)]) ∧
    ((¬ ∃ m ∈ st.messages, m.id = messageId ∧ m.username = requester) →
      (deleteMessage messageId requester st).1 = st ∧
      (deleteMessage messageId requester st).2 = []) := by
  constructor
  · intro hex
    have h := deleteMessage_of_match messageId requester st hnd hex
    obtain ⟨m, hm, hid, _⟩ := hex
    refine ⟨by rw [h], ?_, by rw [h]⟩
    rw [h]
    exact length_filter_not_id st.messages hnd ⟨m, hm, hid⟩
  · intro hno
    push_neg at hno
    have h := deleteMessage_of_no_match messageId requester st
      (fun m hm hand => hno m hm hand.1 hand.2)
    exact ⟨by rw [h], by rw [h]⟩

/-- Witness for C3 at a concrete input: the one-message state with a
duplicate-free id list. -/
theorem C3_delete_exactly_one_witness :
    ((∃ m ∈ exState.messages, m.id = 5 ∧ m.username = "lev") →
      (deleteMessage 5 "lev" exState).1.messages =
        exState.messages.filter (fun m => decide (¬ m.id = 5)) ∧
      (deleteMessage 5 "lev" exState).1.messages.length + 1 = exState.messages.length ∧
      (deleteMessage 5 "lev" exState).2 = [(Target.all, Event.message_deleted 5)]) ∧
    ((¬ ∃ m ∈ exState.messages, m.id = 5 ∧ m.username = "lev") →
      (deleteMessage 5 "lev" exState).1 = exState ∧
      (deleteMessage 5 "lev" exState).2 = []) :=
  C3_delete_exactly_one exState 5 "lev" (by simp [exState, initialState])


/-- C4 counterexample: a typing entry set at T = 0 is still present, and
no stopped-typing event is emitted, when the sweep runs exactly at
T + 3000 ms, contradicting removal at any time ≥ T + 3000 ms (the code
tests `now - timestamp > 3000`, strictly). -/
theorem C4_sweep_counterexample :
    (sweepTyping 3000 exTypingState).1.typingUsers = [("lev", 0)] ∧
    (sweepTyping 3000 exTypingState).2 = [] := by
  constructor <;> simp [sweepTyping, exTypingState, initialState]

/-- C4 (amended): a typing entry set at time T and never refreshed is
removed by a sweep run at any time > T + 3000 ms (equivalently,
≥ T + 3001 ms), with a stopped-typing event emitted for that username,
while a sweep run at any time ≤ T + 3000 ms (in particular at
T + 2999 ms) leaves the entry present. -/
theorem C4_sweep_strict_expiry (st : ServerState) (now : Nat) (u : String) (T : Nat)
    (hkeys : (st.typingUsers.map Prod.fst).Nodup)
    (hget : mapGet st.typingUsers u = some T) :
    (now ≤ T + 3000 → mapGet (sweepTyping now st).1.typingUsers u = some T) ∧
    (T + 3000 < now →
      mapGet (sweepTyping now st).1.typingUsers u = none ∧
      (Target.all, Event.user_stopped_typing u) ∈ (sweepTyping now st).2) := by
  have hty : (sweepTyping now st).1.typingUsers =
      st.typingUsers.filter (fun p => !decide (p.2 + 3000 < now)) := rfl
  have hfil := mapGet_filter (fun p => !decide (p.2 + 3000 < now)) hkeys hget
  constructor
  · intro hle
    rw [hty, hfil, if_pos (by simp; omega)]
  · intro hlt
    refine ⟨by rw [hty, hfil, if_neg (by simp; omega)], ?_⟩
    have hmem : (u, T) ∈ st.typingUsers := mem_of_mapGet_eq_some hget
    have hexp : (u, T) ∈ st.typingUsers.filter (fun p => decide (p.2 + 3000 < now)) :=
      List.mem_filter.mpr ⟨hmem, by simpa using hlt⟩
    exact List.mem_map.mpr ⟨(u, T), hexp, rfl⟩

/-- Witness for C4 at a concrete input: entry set at 0, sweep at 3001. -/
theorem C4_sweep_strict_expiry_witness :
    (3001 ≤ 0 + 3000 → mapGet (sweepTyping 3001 exTypingState).1.typingUsers "lev" = some 0) ∧
    (0 + 3000 < 3001 →
      mapGet (sweepTyping 3001 exTypingState).1.typingUsers "lev" = none ∧
      (Target.all, Event.user_stopped_typing "lev") ∈ (sweepTyping 3001 exTypingState).2) :=
  C4_sweep_strict_expiry exTypingState 3001 "lev" 0
    (by simp [exTypingState, initialState])
    (by simp [exTypingState, initialState, mapGet_cons])

/-- C5: `search` returns the empty sequence on an empty query, and
otherwise exactly the stored messages whose lowered content or lowered
username contains the lowered query as a substring, in store order
(the result is a sublist of the store). -/
theorem C5_search_characterization (query : String) (ms : List Message) :
    searchMessages "" ms = [] ∧
    (searchMessages query ms).Sublist ms ∧
    (∀ m, m ∈ searchMessages query ms ↔
      m ∈ ms ∧ query ≠ "" ∧
      (query.toLower.toList <:+: m.content.toLower.toList ∨
       query.toLower.toList <:+: m.username.toLower.toList)) := by
  refine ⟨by simp [searchMessages], ?_, ?_⟩
  · by_cases hq : query = ""
    · rw [searchMessages, if_pos hq]
      exact List.nil_sublist ms
    · rw [searchMessages, if_neg hq]
      exact List.filter_sublist ms
  · intro m
    by_cases hq : query = ""
    · rw [searchMessages, if_pos hq]
      simp [hq]
    · rw [searchMessages, if_neg hq, List.mem_filter]
      simp only [Bool.or_eq_true, strContains_iff]
      tauto

/-- C6 counterexample: on a concrete join, the presence event
(`user_status_update`) is emitted with target `all`, and a target-`all`
emission is received by the joining connection itself — so the presence
notice is not delivered "to all connections except the joiner". -/
theorem C6_join_counterexample :
    (Target.all, Event.user_status_update "lev" "online") ∈
      (joinHandler "s1" "lev" initialState).2 ∧
    receives true Target.all = true := by
  constructor
  · simp [joinHandler]
  · rfl

/-- C6 (amended): on every join, the joining connection alone receives
the history snapshot and the online roster; the `user_joined` notice
goes to all connections except the joiner; but the presence update
(`user_status_update`) is emitted to all connections, the joiner
included. -/
theorem C6_join_targets (socketId username : String) (st : ServerState) :
    ((Target.senderOnly, Event.chat_history st.messages) ∈
      (joinHandler socketId username st).2) ∧
    (∀ tg ms', (tg, Event.chat_history ms') ∈ (joinHandler socketId username st).2 →
      tg = Target.senderOnly ∧ ms' = st.messages) ∧
    (∀ tg entries, (tg, Event.online_users entries) ∈ (joinHandler socketId username st).2 →
      tg = Target.senderOnly) ∧
    ((Target.exceptSender, Event.user_joined username) ∈ (joinHandler socketId username st).2) ∧
    (∀ tg u', (tg, Event.user_joined u') ∈ (joinHandler socketId username st).2 →
      tg = Target.exceptSender) ∧
    ((Target.all, Event.user_status_update username "online") ∈
      (joinHandler socketId username st).2) := by
  refine ⟨by simp [joinHandler], ?_, ?_, by simp [joinHandler], ?_, by simp [joinHandler]⟩
  · intro tg ms' hmem
    simp only [joinHandler, List.mem_cons, List.not_mem_nil, or_false] at hmem
    rcases hmem with h | h | h | h <;> simp_all
  · intro tg entries hmem
    simp only [joinHandler, List.mem_cons, List.not_mem_nil, or_false] at hmem
    rcases hmem with h | h | h | h <;> simp_all
  · intro tg u' hmem
    simp only [joinHandler, List.mem_cons, List.not_mem_nil, or_false] at hmem
    rcases hmem with h | h | h | h <;> simp_all


/-- C7 counterexample: with an empty message store (no message has id 1),
`mark_as_read` still mutates the read-receipt state, creating a receipt
entry for id 1 with reader `lev` — the handler never consults the
message store. -/
theorem C7_markRead_counterexample :
    initialState.messages = [] ∧
    (markAsRead 1 "lev" initialState).1.readReceipts = [(1, ["lev"])] ∧
    (markAsRead 1 "lev" initialState).1.readReceipts ≠ initialState.readReceipts := by
  refine ⟨rfl, rfl, ?_⟩
  intro heq
  have h1 : (markAsRead 1 "lev" initialState).1.readReceipts = [(1, ["lev"])] := rfl
  rw [h1] at heq
  simp [initialState] at heq

/-- C7 (amended): `mark_as_read` updates the read-receipt map
unconditionally, whether or not any stored message carries the id: the
receipt set for the id always gains the username (created if absent),
receipt entries for other ids are untouched, and when no receipt entry
existed the map does change — it is never a no-op in that case, even
with the message absent from the store. -/
theorem C7_markRead_ignores_store (st : ServerState) (messageId : ℚ) (username : String) :
    mapGet (markAsRead messageId username st).1.readReceipts messageId =
      some (jsSetAdd ((mapGet st.readReceipts messageId).getD []) username) ∧
    (∀ id', id' ≠ messageId →
      mapGet (markAsRead messageId username st).1.readReceipts id' =
        mapGet st.readReceipts id') ∧
    (mapGet st.readReceipts messageId = none →
      (markAsRead messageId username st).1.readReceipts ≠ st.readReceipts) := by
  have h1 : (markAsRead messageId username st).1.readReceipts =
      mapSet st.readReceipts messageId
        (jsSetAdd ((mapGet st.readReceipts messageId).getD []) username) := rfl
  refine ⟨?_, ?_, ?_⟩
  · rw [h1]
    exact mapGet_mapSet_self _ _ _
  · intro id' hne
    rw [h1]
    exact mapGet_mapSet_ne _ _ _ _ hne
  · intro hnone heq
    have h2 : mapGet (markAsRead messageId username st).1.readReceipts messageId =
        some (jsSetAdd ((mapGet st.readReceipts messageId).getD []) username) := by
      rw [h1]
      exact mapGet_mapSet_self _ _ _
    rw [heq, hnone] at h2
    exact Option.noConfusion h2

/-- C8: `mark_as_read` is idempotent — marking the same message read by
the same user twice leaves exactly the state one call produces. -/
theorem C8_markRead_idempotent (st : ServerState) (messageId : ℚ) (username : String) :
    (markAsRead messageId username (markAsRead messageId username st).1).1 =
      (markAsRead messageId username st).1 := by
  have hmem := mem_jsSetAdd_self ((mapGet st.readReceipts messageId).getD []) username
  have hrr : (markAsRead messageId username (markAsRead messageId username st).1).1.readReceipts
      = (markAsRead messageId username st).1.readReceipts := by
    have e1 : (markAsRead messageId username st).1.readReceipts
        = mapSet st.readReceipts messageId
            (jsSetAdd ((mapGet st.readReceipts messageId).getD []) username) := rfl
    have e2 : (markAsRead messageId username
        (markAsRead messageId username st).1).1.readReceipts
        = mapSet (markAsRead messageId username st).1.readReceipts messageId
            (jsSetAdd ((mapGet (markAsRead messageId username st).1.readReceipts
                messageId).getD []) username) := rfl
    rw [e2, e1, mapGet_mapSet_self, Option.getD_some, jsSetAdd_of_mem hmem,
      mapSet_mapSet_self]
  exact ServerState.ext rfl rfl rfl rfl hrr

/-- C10: a successful authorized delete leaves the read-receipt map
wholly untouched: the deleted id's (non-empty) receipt entry is still
there and every other id's receipts are unchanged. -/
theorem C10_delete_keeps_receipts (st : ServerState) (messageId : ℚ) (requester : String)
    (s : List String) (hs : mapGet st.readReceipts messageId = some s) (hne : s ≠ [])
    (hauth : ∃ m ∈ st.messages, m.id = messageId ∧ m.username = requester) :
    mapGet (deleteMessage messageId requester st).1.readReceipts messageId = some s ∧
    (∀ id', mapGet (deleteMessage messageId requester st).1.readReceipts id' =
      mapGet st.readReceipts id') := by
  have h := deleteMessage_readReceipts messageId requester st
  exact ⟨by rw [h, hs], fun id' => by rw [h]⟩

/-- Witness for C10 at a concrete input: `lev` deletes the message with
id 5, whose receipt entry `["cin"]` survives. -/
theorem C10_delete_keeps_receipts_witness :
    mapGet (deleteMessage 5 "lev" exState).1.readReceipts 5 = some ["cin"] ∧
    (∀ id', mapGet (deleteMessage 5 "lev" exState).1.readReceipts id' =
      mapGet exState.readReceipts id') :=
  C10_delete_keeps_receipts exState 5 "lev" ["cin"]
    (by simp [exState, initialState, mapGet_cons])
    (by simp)
    ⟨exMsg, by simp [exState, initialState], by simp [exMsg], by simp [exMsg]⟩


/-- C9 counterexample: two sends that draw the same `Date.now()` and
`Math.random()` values (both 0) give both stored messages the id 0, so
an append can produce an id equal to one already in the store — the
code never checks for collisions. -/
theorem C9_id_collision_counterexample :
    ¬ (((sendMessage exData2 0 0 (sendMessage exData 0 0 initialState).1).1.messages.map
        Message.id).Nodup) := by
  have h1 : (sendMessage exData 0 0 initialState).1.messages = [mkMessage exData 0 0] := by
    rw [sendMessage_messages]
    simp [initialState]
  have h2 : (sendMessage exData2 0 0 (sendMessage exData 0 0 initialState).1).1.messages
      = [mkMessage exData 0 0, mkMessage exData2 0 0] := by
    rw [sendMessage_messages, h1]
    simp
  rw [h2]
  simp [mkMessage]

/-- C9 (amended): the store's ids stay pairwise distinct provided every
id the environment hands out (`Date.now() + Math.random()`) is fresh,
i.e. differs from every id already stored; the code itself does not
enforce freshness, and equal time+random draws do collide. -/
theorem C9_fresh_ids_nodup (st : ServerState) (data : SendData) (now : Nat) (rand : ℚ)
    (hnd : (st.messages.map Message.id).Nodup)
    (hfresh : ((now : ℚ) + rand) ∉ st.messages.map Message.id) :
    ((sendMessage data now rand st).1.messages.map Message.id).Nodup := by
  have hpush : ((st.messages ++ [mkMessage data now rand]).map Message.id).Nodup := by
    rw [List.map_append]
    rw [List.nodup_append]
    refine ⟨hnd, by simp, ?_⟩
    rw [List.map_singleton]
    rw [List.disjoint_singleton]
    simpa [mkMessage] using hfresh
  have hsub : (sendMessage data now rand st).1.messages.Sublist
      (st.messages ++ [mkMessage data now rand]) := by
    rw [sendMessage_messages]
    exact List.drop_sublist _ _
  exact (hsub.map Message.id).nodup hpush

/-- Witness for C9 at a concrete input: a fresh id into the empty store. -/
theorem C9_fresh_ids_nodup_witness :
    ((sendMessage exData 0 0 initialState).1.messages.map Message.id).Nodup :=
  C9_fresh_ids_nodup initialState exData 0 0 (by simp [initialState]) (by simp [initialState])

end Chat
